import Mathlib

/-!
Verification of the `Summarize-Scientific-Documents` notebook.

The notebook samples articles from an S3 listing (`random.sample`), runs a
Comprehend topic-modeling job guarded by a single status check, joins the two
result CSV tables with pandas (sort, groupby/aggregate, left merge), selects a
summarization input by regex search for `"Background (.{,1000})"` inside an
unbounded retry loop, and waits on an asynchronous inference result with a
bounded waiter (24 attempts, 15 second delay).

This file is a shallow embedding of those local transformations, translated
directly from the notebook's code, followed by theorems settling the spec's
claims about them.
-/

/-- A row of `data/topic-terms.csv`: columns `topic`, `term`, `weight`.
Weights (CSV decimals) are modelled as rationals. -/
structure TermRow where
  topic : Nat
  term : String
  weight : Rat
deriving DecidableEq, Repr

/-- A row of `data/doc-topics.csv`: columns `docname`, `topic`, `proportion`. -/
structure DocRow where
  docname : String
  topic : Nat
  proportion : Rat
deriving DecidableEq, Repr

/-- A row of the joined `results` table produced by
`pd.merge(docs, topics, how="left", on="topic")`.  The `terms` field is
`none` when the left merge found no term row for the topic (pandas NaN). -/
structure ResultRow where
  docname : String
  topic : Nat
  proportion : Rat
  terms : Option String
deriving DecidableEq, Repr

/-- Comparison used by `sort_values(["topic", "weight"], ascending=[True, False])`:
topic ascending, then weight descending. -/
def termLE (a b : TermRow) : Prop :=
  a.topic < b.topic ∨ (a.topic = b.topic ∧ b.weight ≤ a.weight)

instance : DecidableRel termLE := fun a b => by
  unfold termLE; infer_instance

instance : IsTotal TermRow termLE := by
  constructor
  intro a b
  rcases Nat.lt_trichotomy a.topic b.topic with h | h | h
  · exact Or.inl (Or.inl h)
  · rcases le_total a.weight b.weight with hw | hw
    · exact Or.inr (Or.inr ⟨h.symm, hw⟩)
    · exact Or.inl (Or.inr ⟨h, hw⟩)
  · exact Or.inr (Or.inl h)

instance : IsTrans TermRow termLE := by
  constructor
  intro a b c hab hbc
  rcases hab with h1 | ⟨h1, hw1⟩
  · rcases hbc with h2 | ⟨h2, _⟩
    · exact Or.inl (h1.trans h2)
    · exact Or.inl (h2 ▸ h1)
  · rcases hbc with h2 | ⟨h2, hw2⟩
    · exact Or.inl (h1 ▸ h2)
    · exact Or.inr ⟨h1.trans h2, hw2.trans hw1⟩

/-- Comparison used by `sort_values(["docname", "proportion"], ascending=[True, False])`:
document name ascending, then proportion descending. -/
def docLE (a b : DocRow) : Prop :=
  a.docname < b.docname ∨ (a.docname = b.docname ∧ b.proportion ≤ a.proportion)

instance : DecidableRel docLE := fun a b => by
  unfold docLE; infer_instance

instance : IsTotal DocRow docLE := by
  constructor
  intro a b
  rcases lt_trichotomy a.docname b.docname with h | h | h
  · exact Or.inl (Or.inl h)
  · rcases le_total a.proportion b.proportion with hw | hw
    · exact Or.inr (Or.inr ⟨h.symm, hw⟩)
    · exact Or.inl (Or.inr ⟨h, hw⟩)
  · exact Or.inr (Or.inl h)

instance : IsTrans DocRow docLE := by
  constructor
  intro a b c hab hbc
  rcases hab with h1 | ⟨h1, hw1⟩
  · rcases hbc with h2 | ⟨h2, _⟩
    · exact Or.inl (h1.trans h2)
    · exact Or.inl (h2 ▸ h1)
  · rcases hbc with h2 | ⟨h2, hw2⟩
    · exact Or.inl (h1 ▸ h2)
    · exact Or.inr ⟨h1.trans h2, hw2.trans hw1⟩

/-- The term table after
`pd.read_csv("data/topic-terms.csv").sort_values(["topic","weight"], ascending=[True,False])`. -/
def sortedTT (tt : List TermRow) : List TermRow :=
  List.insertionSort termLE tt

/-- The distinct topic identifiers, in the ascending order the pandas
`groupby(["topic"])` produces its groups. -/
def topicKeys (tt : List TermRow) : List Nat :=
  ((sortedTT tt).map TermRow.topic).dedup

/-- The terms of one topic group, in the row order of the sorted table. -/
def termsOf (tt : List TermRow) (k : Nat) : List String :=
  ((sortedTT tt).filter (fun r => r.topic == k)).map TermRow.term

/-- The `topics` series:
`.groupby(["topic"])["term"].agg(lambda x: ", ".join(x))` applied to the
sorted term table — one `(topic, joined terms)` pair per distinct topic. -/
def topicsAgg (tt : List TermRow) : List (Nat × String) :=
  (topicKeys tt).map (fun k => (k, String.intercalate ", " (termsOf tt k)))

/-- The document table after
`pd.read_csv("data/doc-topics.csv").sort_values(["docname","proportion"], ascending=[True,False])`. -/
def sortedDocs (dt : List DocRow) : List DocRow :=
  List.insertionSort docLE dt

/-- `pd.merge(docs, topics, how="left", on="topic")`: every left row is kept;
it is replicated once per matching right row, and a left row whose topic has
no right row is kept once with a null `terms` field. -/
def leftJoin (docs : List DocRow) (topics : List (Nat × String)) : List ResultRow :=
  docs.flatMap (fun d =>
    let ms := topics.filter (fun p => p.1 == d.topic)
    if ms = [] then [⟨d.docname, d.topic, d.proportion, none⟩]
    else ms.map (fun p => ⟨d.docname, d.topic, d.proportion, some p.2⟩))

/-- The notebook's `results = pd.merge(docs, topics, how="left", on="topic")`,
with `topics` and `docs` built as above. -/
def results (tt : List TermRow) (dt : List DocRow) : List ResultRow :=
  leftJoin (sortedDocs dt) (topicsAgg tt)

/-- The fields of a joined row that come from the document side. -/
def docFields (r : ResultRow) : String × Nat × Rat :=
  (r.docname, r.topic, r.proportion)

/-- The fields of a document row carried into the join. -/
def docRowFields (d : DocRow) : String × Nat × Rat :=
  (d.docname, d.topic, d.proportion)

/-- The single joined row the left merge produces for one document row when the
right side has at most one row per topic. -/
def joinRow (topics : List (Nat × String)) (d : DocRow) : ResultRow :=
  match topics.filter (fun p => p.1 == d.topic) with
  | [] => ⟨d.docname, d.topic, d.proportion, none⟩
  | p :: _ => ⟨d.docname, d.topic, d.proportion, some p.2⟩

lemma sortedTT_perm (tt : List TermRow) : (sortedTT tt).Perm tt :=
  List.perm_insertionSort termLE tt

lemma sortedDocs_perm (dt : List DocRow) : (sortedDocs dt).Perm dt :=
  List.perm_insertionSort docLE dt

lemma mem_topicKeys {tt : List TermRow} {k : Nat} :
    k ∈ topicKeys tt ↔ ∃ r ∈ tt, r.topic = k := by
  unfold topicKeys
  rw [List.mem_dedup, List.mem_map]
  constructor
  · rintro ⟨r, hr, rfl⟩
    exact ⟨r, (sortedTT_perm tt).mem_iff.mp hr, rfl⟩
  · rintro ⟨r, hr, rfl⟩
    exact ⟨r, (sortedTT_perm tt).mem_iff.mpr hr, rfl⟩

lemma topicsAgg_keys (tt : List TermRow) :
    (topicsAgg tt).map Prod.fst = topicKeys tt := by
  unfold topicsAgg
  rw [List.map_map]
  exact List.map_id'' (fun x => rfl) _

lemma nodup_topicsAgg_keys (tt : List TermRow) :
    ((topicsAgg tt).map Prod.fst).Nodup := by
  rw [topicsAgg_keys]
  exact List.nodup_dedup _

lemma length_filter_le_one {tps : List (Nat × String)}
    (h : (tps.map Prod.fst).Nodup) (x : Nat) :
    (tps.filter (fun p => p.1 == x)).length ≤ 1 := by
  induction tps with
  | nil => simp
  | cons p tps ih =>
    rw [List.map_cons, List.nodup_cons] at h
    by_cases hp : p.1 = x
    · have hnil : tps.filter (fun p => p.1 == x) = [] := by
        rw [List.filter_eq_nil_iff]
        intro q hq hqx
        have hq1 : q.1 = x := by simpa using hqx
        exact h.1 (hp ▸ hq1 ▸ List.mem_map_of_mem Prod.fst hq)
      simp [List.filter_cons, hp, hnil]
    · simpa [List.filter_cons, hp] using ih h.2

lemma joinRow_docFields (tps : List (Nat × String)) (d : DocRow) :
    docFields (joinRow tps d) = docRowFields d := by
  unfold joinRow docFields docRowFields
  split <;> rfl

lemma joinRow_topic (tps : List (Nat × String)) (d : DocRow) :
    (joinRow tps d).topic = d.topic := by
  unfold joinRow
  split <;> rfl

lemma joinRow_terms_none {tps : List (Nat × String)} {d : DocRow}
    (h : tps.filter (fun p => p.1 == d.topic) = []) :
    (joinRow tps d).terms = none := by
  unfold joinRow
  rw [h]

lemma leftJoin_eq_map {tps : List (Nat × String)}
    (h : (tps.map Prod.fst).Nodup) (docs : List DocRow) :
    leftJoin docs tps = docs.map (joinRow tps) := by
  induction docs with
  | nil => rfl
  | cons d ds ih =>
    have hbranch :
        (let ms := tps.filter (fun p => p.1 == d.topic)
         if ms = [] then [ResultRow.mk d.docname d.topic d.proportion none]
         else ms.map (fun p => ⟨d.docname, d.topic, d.proportion, some p.2⟩)) =
          [joinRow tps d] := by
      unfold joinRow
      cases hms : tps.filter (fun p => p.1 == d.topic) with
      | nil => simp [hms]
      | cons p rest =>
        have hlen := length_filter_le_one h d.topic
        rw [hms] at hlen
        have hrest : rest = [] := by
          cases rest with
          | nil => rfl
          | cons q qs => simp at hlen
        subst hrest
        simp [hms]
    calc leftJoin (d :: ds) tps
        = (let ms := tps.filter (fun p => p.1 == d.topic)
           if ms = [] then [ResultRow.mk d.docname d.topic d.proportion none]
           else ms.map (fun p => ⟨d.docname, d.topic, d.proportion, some p.2⟩)) ++
            leftJoin ds tps := rfl
      _ = [joinRow tps d] ++ ds.map (joinRow tps) := by rw [hbranch, ih]
      _ = (d :: ds).map (joinRow tps) := rfl

/-- C1: the left join keeps exactly one output row per document-topic input
row — the output has the input's length and its document fields are a
permutation (the sort's reordering) of the input's — and a row whose topic has
no term-table row gets a null term string rather than being dropped. -/
theorem left_join_preserves_doc_rows (tt : List TermRow) (dt : List DocRow) :
    (results tt dt).length = dt.length ∧
    ((results tt dt).map docFields).Perm (dt.map docRowFields) ∧
    (∀ r ∈ results tt dt, (∀ trow ∈ tt, trow.topic ≠ r.topic) → r.terms = none) := by
  have hnd := nodup_topicsAgg_keys tt
  have hmap : results tt dt = (sortedDocs dt).map (joinRow (topicsAgg tt)) :=
    leftJoin_eq_map hnd (sortedDocs dt)
  refine ⟨?_, ?_, ?_⟩
  · rw [hmap, List.length_map, (sortedDocs_perm dt).length_eq]
  · rw [hmap, List.map_map]
    have h1 : (sortedDocs dt).map (docFields ∘ joinRow (topicsAgg tt)) =
        (sortedDocs dt).map docRowFields :=
      List.map_congr_left (fun d _ => joinRow_docFields _ d)
    rw [h1]
    exact (sortedDocs_perm dt).map docRowFields
  · intro r hr hno
    rw [hmap] at hr
    obtain ⟨d, _, rfl⟩ := List.mem_map.mp hr
    refine joinRow_terms_none ?_
    rw [List.filter_eq_nil_iff]
    intro p hp hpx
    have hp1 : p.1 = d.topic := by simpa using hpx
    have hmem : p.1 ∈ (topicsAgg tt).map Prod.fst := List.mem_map_of_mem Prod.fst hp
    rw [topicsAgg_keys] at hmem
    obtain ⟨trow, htrow, htop⟩ := mem_topicKeys.mp hmem
    exact hno trow htrow (by rw [joinRow_topic, htop, hp1])

/-- C2: after sorting by (topic, weight descending) and aggregating, each topic
appears in exactly one row (the key list has no duplicates and covers every
input row's topic), and that row's string joins the topic's terms with ", " in
non-increasing weight order. -/
theorem topic_terms_aggregation (tt : List TermRow) :
    ((topicsAgg tt).map Prod.fst).Nodup ∧
    (∀ r ∈ tt, r.topic ∈ (topicsAgg tt).map Prod.fst) ∧
    (∀ k s, (k, s) ∈ topicsAgg tt →
      ∃ rows : List TermRow,
        rows.Perm (tt.filter (fun r => r.topic == k)) ∧
        rows.Pairwise (fun a b => b.weight ≤ a.weight) ∧
        (∀ r ∈ rows, r.topic = k) ∧
        s = String.intercalate ", " (rows.map TermRow.term)) := by
  refine ⟨nodup_topicsAgg_keys tt, ?_, ?_⟩
  · intro r hr
    rw [topicsAgg_keys]
    exact mem_topicKeys.mpr ⟨r, hr, rfl⟩
  · intro k s hks
    obtain ⟨k', hk', heq⟩ := List.mem_map.mp hks
    have hk : k' = k := congrArg Prod.fst heq
    have hs : String.intercalate ", " (termsOf tt k') = s := congrArg Prod.snd heq
    subst hk
    have htopics : ∀ r ∈ (sortedTT tt).filter (fun r => r.topic == k'), r.topic = k' := by
      intro r hr
      have := (List.mem_filter.mp hr).2
      simpa using this
    refine ⟨(sortedTT tt).filter (fun r => r.topic == k'), ?_, ?_, htopics, ?_⟩
    · exact (sortedTT_perm tt).filter _
    · have hsorted : List.Pairwise termLE (sortedTT tt) :=
        List.sorted_insertionSort termLE tt
      have hpw : List.Pairwise termLE ((sortedTT tt).filter (fun r => r.topic == k')) :=
        hsorted.sublist (List.filter_sublist _)
      refine List.Pairwise.imp_of_mem ?_ hpw
      intro a b ha hb hab
      rcases hab with hlt | ⟨_, hw⟩
      · rw [htopics a ha, htopics b hb] at hlt
        exact absurd hlt (lt_irrefl k')
      · exact hw
    · exact hs.symm

/-- C3: on the term table {(1, 0.9, "gene"), (1, 0.5, "cell")} and the document
table {("a.txt", 1, 0.8)}, the joiner outputs exactly the single row
("a.txt", 1, 0.8, "gene, cell"). -/
theorem join_example_scenario :
    results [⟨1, "gene", mkRat 9 10⟩, ⟨1, "cell", mkRat 1 2⟩]
        [⟨"a.txt", 1, mkRat 8 10⟩] =
      [⟨"a.txt", 1, mkRat 8 10, some "gene, cell"⟩] := by
  decide

/-- C4: the joiner contains no randomness — two runs on identical topic-term
and doc-topic tables (in particular a re-run on unchanged inputs) produce
identical joined tables, row order included. -/
theorem joiner_deterministic (tt₁ tt₂ : List TermRow) (dt₁ dt₂ : List DocRow)
    (ht : tt₁ = tt₂) (hd : dt₁ = dt₂) :
    results tt₁ dt₁ = results tt₂ dt₂ := by
  rw [ht, hd]

theorem joiner_deterministic_witness :
    results [⟨1, "gene", mkRat 9 10⟩] [⟨"a.txt", 1, mkRat 4 5⟩] =
      results [⟨1, "gene", mkRat 9 10⟩] [⟨"a.txt", 1, mkRat 4 5⟩] :=
  joiner_deterministic _ _ _ _ rfl rfl

theorem left_join_preserves_doc_rows_witness :
    (results [] [⟨"d.txt", 3, mkRat 1 2⟩]).length = 1 ∧
    (ResultRow.mk "d.txt" 3 (mkRat 1 2) none).terms = none := by
  have h := left_join_preserves_doc_rows [] [⟨"d.txt", 3, mkRat 1 2⟩]
  exact ⟨h.1, h.2.2 ⟨"d.txt", 3, mkRat 1 2, none⟩ (by decide)
    (fun trow htrow => absurd htrow (List.not_mem_nil trow))⟩

theorem topic_terms_aggregation_witness :
    (1 : Nat) ∈ (topicsAgg [⟨1, "gene", mkRat 9 10⟩]).map Prod.fst ∧
    (∃ rows : List TermRow,
      rows.Perm ([⟨1, "gene", mkRat 9 10⟩].filter (fun r => r.topic == 1)) ∧
      rows.Pairwise (fun a b => b.weight ≤ a.weight) ∧
      (∀ r ∈ rows, r.topic = 1) ∧
      "gene" = String.intercalate ", " (rows.map TermRow.term)) := by
  have h := topic_terms_aggregation [⟨1, "gene", mkRat 9 10⟩]
  exact ⟨h.2.1 ⟨1, "gene", mkRat 9 10⟩ (by decide), h.2.2 1 "gene" (by decide)⟩

lemma perm_getElem_cons_eraseIdx {α : Type} :
    ∀ (l : List α) (i : Nat) (h : i < l.length),
      l.Perm (l.get ⟨i, h⟩ :: l.eraseIdx i)
  | _ :: _, 0, _ => List.Perm.refl _
  | a :: l, i + 1, h =>
    let IH := perm_getElem_cons_eraseIdx l i (Nat.lt_of_succ_lt_succ h)
    ((IH.cons a).trans (List.Perm.swap _ _ _))

/-- `random.sample(population, k)`: draws `k` elements without replacement.
The random source is modelled as a stream `rand` of numbers; each draw removes
the chosen element from the remaining population. -/
def sampleAux {α : Type} : Nat → List α → (Nat → Nat) → List α
  | 0, _, _ => []
  | _ + 1, [], _ => []
  | k + 1, p :: ps, rand =>
    (p :: ps).get ⟨rand 0 % (ps.length + 1), Nat.mod_lt _ (Nat.succ_pos ps.length)⟩ ::
      sampleAux k ((p :: ps).eraseIdx (rand 0 % (ps.length + 1))) (fun n => rand (n + 1))

/-- `random.sample(population, k)` as called on the S3 listing: raises
`ValueError: Sample larger than population or is negative` when `k` exceeds the
population size, otherwise returns `k` distinct draws. -/
def randomSample {α : Type} (pop : List α) (k : Nat) (rand : Nat → Nat) :
    Except String (List α) :=
  if pop.length < k then
    .error "Sample larger than population or is negative"
  else
    .ok (sampleAux k pop rand)

lemma sampleAux_perm {α : Type} :
    ∀ (k : Nat) (pop : List α) (rand : Nat → Nat), k = pop.length →
      (sampleAux k pop rand).Perm pop := by
  intro k
  induction k with
  | zero =>
    intro pop rand hk
    rw [List.length_eq_zero.mp hk.symm]
    exact List.Perm.refl _
  | succ k ih =>
    intro pop rand hk
    cases pop with
    | nil => simp at hk
    | cons p ps =>
      have hlen : k = ((p :: ps).eraseIdx (rand 0 % (ps.length + 1))).length := by
        have := List.length_eraseIdx_add_one
          (l := p :: ps) (i := rand 0 % (ps.length + 1))
          (Nat.mod_lt _ (Nat.succ_pos ps.length))
        simp only [List.length_cons] at this hk ⊢
        omega
      have IH := ih ((p :: ps).eraseIdx (rand 0 % (ps.length + 1)))
        (fun n => rand (n + 1)) hlen
      exact (IH.cons _).trans
        (perm_getElem_cons_eraseIdx (p :: ps) _
          (Nat.mod_lt _ (Nat.succ_pos ps.length))).symm

/-- C5: requesting a sample of exactly the whole listing succeeds and returns
each listed identifier exactly once (the result is a permutation of the
listing), while requesting one more than available fails with the
insufficient-data `ValueError` rather than a partial sample. -/
theorem sampler_boundary (pop : List String) (rand : Nat → Nat) :
    (∃ res, randomSample pop pop.length rand = .ok res ∧ res.Perm pop) ∧
    randomSample pop (pop.length + 1) rand =
      .error "Sample larger than population or is negative" := by
  constructor
  · refine ⟨sampleAux pop.length pop rand, ?_, sampleAux_perm _ _ _ rfl⟩
    unfold randomSample
    rw [if_neg (lt_irrefl pop.length)]
  · unfold randomSample
    rw [if_pos (Nat.lt_succ_self _)]

/-- One character of
`text.replace("\n", " ").replace("\t", " ")`: newlines and tabs become
spaces, everything else is unchanged. -/
def flattenChar (c : Char) : Char :=
  if c = '\n' ∨ c = '\t' then ' ' else c

/-- The flattened article text (the article is modelled as its list of
decoded characters). -/
def flatten (text : List Char) : List Char :=
  text.map flattenChar

/-- The literal part of the regex `"Background (.{,1000})"` before the
capture group. -/
def bgPat : List Char :=
  "Background ".toList

/-- The capture group `(.{,1000})` matched greedily right after the literal:
the longest run of at most 1000 non-newline characters. -/
def captureFrom (t : List Char) : List Char :=
  ((t.drop bgPat.length).takeWhile (fun c => c ≠ '\n')).take 1000

/-- `re.search("Background (.{,1000})", text)`: scan left to right for the
first position where the literal matches, and return the capture group there. -/
def searchBG : List Char → Option (List Char)
  | [] => none
  | c :: cs =>
    if bgPat.isPrefixOf (c :: cs) then some (captureFrom (c :: cs))
    else searchBG cs

/-- The summarization input the notebook builds for one article:
`re.search` applied to the flattened text; `result.group(1)` when a match
exists. -/
def selectInput (article : List Char) : Option (List Char) :=
  searchBG (flatten article)

lemma flatten_no_newline (text : List Char) : ∀ c ∈ flatten text, c ≠ '\n' := by
  intro c hc
  obtain ⟨c', _, rfl⟩ := List.mem_map.mp hc
  unfold flattenChar
  split
  · decide
  · next h => exact fun hn => h (Or.inl hn)

lemma searchBG_at_first :
    ∀ (t : List Char) (i : Nat),
      bgPat.isPrefixOf (t.drop i) = true →
      (∀ j, j < i → bgPat.isPrefixOf (t.drop j) = false) →
      searchBG t = some (captureFrom (t.drop i)) := by
  intro t
  induction t with
  | nil =>
    intro i hpre _
    rw [List.drop_nil] at hpre
    exact absurd hpre (by decide)
  | cons c cs ih =>
    intro i hpre hfirst
    cases i with
    | zero =>
      rw [List.drop_zero] at hpre
      simp only [searchBG, hpre, if_true]
      rw [List.drop_zero]
    | succ i' =>
      have h0 : bgPat.isPrefixOf (c :: cs) = false := by
        have := hfirst 0 (Nat.succ_pos i')
        rwa [List.drop_zero] at this
      simp only [searchBG, h0, if_false, Bool.false_eq_true]
      exact ih i' hpre (fun j hj => hfirst (j + 1) (Nat.succ_lt_succ hj))

/-- C6: whenever the flattened article contains the literal `"Background "`
(first occurrence at index `i`), the summarization input is exactly the at
most 1000 characters immediately after that occurrence — the matched literal
itself, `"Background"` and its trailing space, is excluded. -/
theorem background_capture (article : List Char) (i : Nat)
    (hpre : bgPat.isPrefixOf ((flatten article).drop i) = true)
    (hfirst : ∀ j, j < i → bgPat.isPrefixOf ((flatten article).drop j) = false) :
    selectInput article =
      some (((flatten article).drop (i + bgPat.length)).take 1000) := by
  unfold selectInput
  rw [searchBG_at_first (flatten article) i hpre hfirst]
  unfold captureFrom
  rw [List.drop_drop, List.takeWhile_eq_self_iff.mpr, Nat.add_comm]
  intro c hc
  have hmem : c ∈ flatten article := List.mem_of_mem_drop hc
  simpa using flatten_no_newline article c hmem

theorem background_capture_witness :
    selectInput ("x\nBackground hello".toList) =
      some (((flatten ("x\nBackground hello".toList)).drop (2 + bgPat.length)).take 1000) :=
  background_capture ("x\nBackground hello".toList) 2 (by decide) (by decide)

/-- The notebook's `while result is None:` input-selection loop, run with
`fuel` remaining iterations against the stream `arts` of sampled article
texts: iteration `i` samples `arts i`, applies the regex search, and retries
on failure.  `none` means the fuel ran out with the loop still spinning; the
real loop has no fuel bound and would still be running. -/
def loopRun (arts : Nat → List Char) : Nat → Nat → Option (List Char)
  | _, 0 => none
  | i, fuel + 1 =>
    match selectInput (arts i) with
    | some r => some r
    | none => loopRun arts (i + 1) fuel

lemma loopRun_isSome_of (arts : Nat → List Char) :
    ∀ (fuel i j : Nat), j < fuel → (selectInput (arts (i + j))).isSome →
      (loopRun arts i fuel).isSome := by
  intro fuel
  induction fuel with
  | zero =>
    intro i j hj _
    exact absurd hj (Nat.not_lt_zero j)
  | succ fuel ih =>
    intro i j hj hmatch
    unfold loopRun
    cases hsel : selectInput (arts i) with
    | some r => rfl
    | none =>
      cases j with
      | zero =>
        rw [Nat.add_zero] at hmatch
        rw [hsel] at hmatch
        exact absurd hmatch (by decide)
      | succ j' =>
        have : i + (j' + 1) = (i + 1) + j' := by omega
        rw [this] at hmatch
        exact ih (i + 1) j' (Nat.lt_of_succ_lt_succ hj) hmatch

lemma loopRun_none_of (arts : Nat → List Char)
    (hall : ∀ i, selectInput (arts i) = none) :
    ∀ (fuel i : Nat), loopRun arts i fuel = none := by
  intro fuel
  induction fuel with
  | zero => intro i; rfl
  | succ fuel ih =>
    intro i
    unfold loopRun
    rw [hall i]
    exact ih (i + 1)

/-- C7: the input-selection loop terminates with a summarization input exactly
when some sampled article matches the `"Background "` pattern; when no sampled
article ever matches, every finite number of iterations leaves the loop still
spinning — it neither raises an error nor stops. -/
theorem selection_loop_termination (arts : Nat → List Char) :
    ((∃ fuel, (loopRun arts 0 fuel).isSome) ↔
      (∃ i, (selectInput (arts i)).isSome)) ∧
    ((∀ i, selectInput (arts i) = none) → ∀ fuel, loopRun arts 0 fuel = none) := by
  constructor
  · constructor
    · intro ⟨fuel, hfuel⟩
      by_contra hno
      push_neg at hno
      have hall : ∀ i, selectInput (arts i) = none := by
        intro i
        cases hsel : selectInput (arts i) with
        | none => rfl
        | some r =>
          have : (selectInput (arts i)).isSome = true := by rw [hsel]; rfl
          exact absurd this (hno i)
      rw [loopRun_none_of arts hall fuel 0] at hfuel
      exact absurd hfuel (by decide)
    · intro ⟨i, hi⟩
      exact ⟨i + 1, loopRun_isSome_of arts (i + 1) 0 i (Nat.lt_succ_self i)
        (by rwa [Nat.zero_add])⟩
  · intro hall fuel
    exact loopRun_none_of arts hall fuel 0

/-- The stages the script body after job submission can perform, as the code
orders them: one `describe_topics_detection_job` call, then — only inside
`if ... == "COMPLETED":` — download, unpack, join and display.  `raiseErr`
would model raising an exception; the code has no raise. -/
inductive Stage where
  | describeJob
  | download
  | unpack
  | join
  | display
  | raiseErr
deriving DecidableEq, Repr

/-- The trace of the post-submission cells as a function of the job status
string returned by the single `describe_topics_detection_job` call. -/
def postSubmitTrace (status : String) : List Stage :=
  [Stage.describeJob] ++
    (if status == "COMPLETED" then
      [Stage.download, Stage.unpack, Stage.join, Stage.display]
    else [])

/-- C8: the script queries the job status exactly once, runs the downstream
stages iff that single check returned `COMPLETED`, and on any other status
silently does nothing further — no retry, no error. -/
theorem single_status_check_gate (status : String) :
    (postSubmitTrace status).count Stage.describeJob = 1 ∧
    (Stage.display ∈ postSubmitTrace status ↔ status = "COMPLETED") ∧
    (Stage.download ∈ postSubmitTrace status ↔ status = "COMPLETED") ∧
    Stage.raiseErr ∉ postSubmitTrace status ∧
    (status ≠ "COMPLETED" → postSubmitTrace status = [Stage.describeJob]) := by
  by_cases h : status = "COMPLETED"
  · subst h
    refine ⟨by decide, ?_, ?_, by decide, fun hne => absurd rfl hne⟩
    · simp [postSubmitTrace]
    · simp [postSubmitTrace]
  · have hb : (status == "COMPLETED") = false := by
      simpa using h
    refine ⟨?_, ?_, ?_, ?_, fun _ => ?_⟩ <;>
      simp [postSubmitTrace, hb, h]

theorem single_status_check_gate_witness :
    postSubmitTrace "IN_PROGRESS" = [Stage.describeJob] :=
  (single_status_check_gate "IN_PROGRESS").2.2.2.2 (by decide)

/-- `WaiterConfig(max_attempts=24, delay=15)`. -/
structure WaiterConfig where
  max_attempts : Nat
  delay : Nat
deriving DecidableEq, Repr

/-- The waiter the notebook constructs for `async_response.get_result`. -/
def tldrWaiter : WaiterConfig :=
  ⟨24, 15⟩

/-- The times (in seconds from the first check) at which the waiter polls:
one check per attempt, `delay` apart. -/
def pollTimes (cfg : WaiterConfig) : List Nat :=
  (List.range cfg.max_attempts).map (fun n => n * cfg.delay)

/-- `async_response.get_result(waiter)`: return the output as soon as one of
the polls finds it available, and raise a timeout error once the attempt
budget is exhausted.  `avail t` is the service's output if it is available
`t` seconds after the first check. -/
def getResult (cfg : WaiterConfig) (avail : Nat → Option String) :
    Except String String :=
  match (pollTimes cfg).findSome? avail with
  | some r => .ok r
  | none => .error "PollingTimeoutError"

/-- C9: the wait polls at most 24 times, 15 seconds apart; it returns the
generated text when a poll within that budget finds the result, and fails
with a timeout error when none does. -/
theorem bounded_waiter (avail : Nat → Option String) :
    (pollTimes tldrWaiter).length = 24 ∧
    (∀ n, n + 1 < (pollTimes tldrWaiter).length →
      (pollTimes tldrWaiter).getD (n + 1) 0 = (pollTimes tldrWaiter).getD n 0 + 15) ∧
    ((∃ k, k < 24 ∧ (avail (k * 15)).isSome) →
      ∃ r, getResult tldrWaiter avail = .ok r) ∧
    ((∀ k, k < 24 → avail (k * 15) = none) →
      getResult tldrWaiter avail = .error "PollingTimeoutError") := by
  refine ⟨by decide, ?_, ?_, ?_⟩
  · intro n hn
    have hlen : (pollTimes tldrWaiter).length = 24 := by decide
    rw [hlen] at hn
    have hn' : n < 24 := Nat.lt_of_succ_lt hn
    unfold pollTimes tldrWaiter at *
    rw [List.getD_eq_getElem?_getD, List.getD_eq_getElem?_getD,
      List.getElem?_map, List.getElem?_map,
      List.getElem?_range hn, List.getElem?_range hn']
    simp [Nat.succ_mul]
  · rintro ⟨k, hk, hsome⟩
    unfold getResult
    cases hfind : (pollTimes tldrWaiter).findSome? avail with
    | some r => exact ⟨r, rfl⟩
    | none =>
      have hall := List.findSome?_eq_none_iff.mp hfind
      have hmem : k * 15 ∈ pollTimes tldrWaiter :=
        List.mem_map_of_mem _ (List.mem_range.mpr hk)
      rw [hall _ hmem] at hsome
      exact absurd hsome (by decide)
  · intro hnone
    unfold getResult
    have hfind : (pollTimes tldrWaiter).findSome? avail = none := by
      rw [List.findSome?_eq_none_iff]
      intro t ht
      obtain ⟨n, hn, rfl⟩ := List.mem_map.mp ht
      exact hnone n (List.mem_range.mp hn)
    rw [hfind]

theorem bounded_waiter_witness :
    getResult tldrWaiter (fun _ => none) = .error "PollingTimeoutError" :=
  (bounded_waiter (fun _ => none)).2.2.2 (fun _ _ => rfl)

/-- What the global name `sample` is bound to at the time the input-selection
cell runs.  The notebook starts with `from random import sample`; the
example-display cell, which runs only when the job status check said
`COMPLETED`, rebinds it with `sample = results.sample()` — a DataFrame value,
not a function. -/
inductive PyValue where
  | randomSampleFn
  | dataFrameVal (rows : List ResultRow)
deriving DecidableEq, Repr

/-- The binding of `sample` after the display cell: shadowed by the DataFrame
exactly when the job status check reported `COMPLETED`. -/
def sampleBinding (jobStatus : String) (joined : List ResultRow) : PyValue :=
  if jobStatus == "COMPLETED" then .dataFrameVal joined else .randomSampleFn

/-- Calling `sample(article_names, 1)` in the input-selection loop: a call on
the random-sampling function draws one article; a call on a DataFrame raises
`TypeError`. -/
def callSample (v : PyValue) (arts : List String) (rand : Nat → Nat) :
    Except String (List String) :=
  match v with
  | .randomSampleFn => randomSample arts 1 rand
  | .dataFrameVal _ => .error "TypeError: DataFrame object is not callable"

/-- C10: whenever the example-display cell has run (the job was `COMPLETED`,
so `sample = results.sample()` executed), the later `sample(article_names, 1)`
call applies a DataFrame and raises a `TypeError`; only on runs where the
display cell did not execute does the call succeed in drawing an article. -/
theorem sample_shadowing (jobStatus : String) (joined : List ResultRow)
    (arts : List String) (rand : Nat → Nat) :
    (jobStatus = "COMPLETED" →
      callSample (sampleBinding jobStatus joined) arts rand =
        .error "TypeError: DataFrame object is not callable") ∧
    (jobStatus ≠ "COMPLETED" → arts ≠ [] →
      ∃ a, callSample (sampleBinding jobStatus joined) arts rand = .ok [a]) := by
  constructor
  · intro h
    subst h
    rfl
  · intro hne hartsne
    have hb : (jobStatus == "COMPLETED") = false := by simpa using hne
    unfold callSample sampleBinding
    rw [hb]
    simp only [Bool.false_eq_true, if_false]
    cases arts with
    | nil => exact absurd rfl hartsne
    | cons p ps =>
      refine ⟨(p :: ps).get ⟨rand 0 % (ps.length + 1),
        Nat.mod_lt _ (Nat.succ_pos ps.length)⟩, ?_⟩
      unfold randomSample
      rw [if_neg (by simp)]
      rfl

theorem sample_shadowing_witness :
    callSample (sampleBinding "COMPLETED" []) ["a.txt"] (fun _ => 0) =
      .error "TypeError: DataFrame object is not callable" :=
  (sample_shadowing "COMPLETED" [] ["a.txt"] (fun _ => 0)).1 rfl
